import Mathlib

/-! Shallow embedding of `release.py`: semantic-version values and parsing,
version-control tag discovery, version bumping, manifest handling and the
release command construction, modelled at the subprocess/file boundary. -/

/-- Python `str.split(sep)` for a one-character separator, over char lists:
`"".split "."` is `[""]`, separators at the edges produce empty parts. -/
def splitOnChar (sep : Char) : List Char → List (List Char)
  | [] => [[]]
  | c :: rest =>
    if c = sep then [] :: splitOnChar sep rest
    else
      match splitOnChar sep rest with
      | [] => [[c]]
      | h :: t => (c :: h) :: t

/-- Whitespace characters that Python `int(str)` strips from both ends. -/
def isPySpace (c : Char) : Bool :=
  c = ' ' || c = '\t' || c = '\n' || c = '\x0b' || c = '\x0c' || c = '\r'

/-- Strip `isPySpace` characters from both ends of a char list. -/
def stripEdges (l : List Char) : List Char :=
  ((l.dropWhile isPySpace).reverse.dropWhile isPySpace).reverse

/-- Digit run continuation for Python `int(str)`: digits, with single
underscores permitted only between two digits. Accumulates the value. -/
def pyDigitsCont : List Char → Nat → Option Nat
  | [], acc => some acc
  | c :: rest, acc =>
    if c.isDigit then pyDigitsCont rest (acc * 10 + (c.toNat - 48))
    else if c = '_' then
      match rest with
      | [] => none
      | d :: rest2 =>
        if d.isDigit then pyDigitsCont rest2 (acc * 10 + (d.toNat - 48)) else none
    else none

/-- Digit run for Python `int(str)`: must start with a digit. -/
def pyDigits : List Char → Option Nat
  | [] => none
  | c :: rest => if c.isDigit then pyDigitsCont rest (c.toNat - 48) else none

/-- Python `int(str)`: strip surrounding whitespace, optional sign, then a
digit run with optional single underscores between digits (ASCII digits). -/
def pyInt (l : List Char) : Option Int :=
  match stripEdges l with
  | [] => none
  | c :: rest =>
    if c = '-' then (pyDigits rest).map (fun n => -(n : Int))
    else if c = '+' then (pyDigits rest).map (fun n => (n : Int))
    else (pyDigits (c :: rest)).map (fun n => (n : Int))

/-- Python `str.removeprefix("v")` at char level: drop one leading `v`. -/
def stripV (l : List Char) : List Char :=
  if l.head? = some 'v' then l.tail else l

/-- Version value from `release.py`: a triple of Python ints. -/
structure Version where
  major : Int
  minor : Int
  patch : Int
  deriving DecidableEq, Repr

/-- The body of `Version.parse` after splitting on `.`: exactly three parts,
each accepted by Python `int`, otherwise the `ValueError` (modelled `none`). -/
def parseParts : List (List Char) → Option Version
  | [a, b, c] =>
    match pyInt a, pyInt b, pyInt c with
    | some x, some y, some z => some ⟨x, y, z⟩
    | _, _, _ => none
  | _ => none

/-- `Version.parse` on a char list: strip an optional leading `v`, split on
`.`, require three integer parts. -/
def Version.parseChars (l : List Char) : Option Version :=
  parseParts (splitOnChar '.' (stripV l))

/-- `Version.parse` from `release.py`; `none` models the raised ValueError. -/
def Version.parse (s : String) : Option Version :=
  Version.parseChars s.toList

/-- `Version.__str__`: always `v<major>.<minor>.<patch>`. -/
def Version.str (v : Version) : String :=
  "v" ++ toString v.major ++ "." ++ toString v.minor ++ "." ++ toString v.patch

/-- `Version.next_major`. -/
def Version.next_major (v : Version) : Version := ⟨v.major + 1, 0, 0⟩

/-- `Version.next_minor`. -/
def Version.next_minor (v : Version) : Version := ⟨v.major, v.minor + 1, 0⟩

/-- `Version.next_patch`. -/
def Version.next_patch (v : Version) : Version := ⟨v.major, v.minor, v.patch + 1⟩

/-- The strict order generated by `dataclass(order=True)`: lexicographic
comparison of the `(major, minor, patch)` tuples. -/
def Version.lt (a b : Version) : Bool :=
  decide (a.major < b.major) ||
    (decide (a.major = b.major) &&
      (decide (a.minor < b.minor) ||
        (decide (a.minor = b.minor) && decide (a.patch < b.patch))))

/-- The non-strict order from `dataclass(order=True)`. -/
def Version.le (a b : Version) : Bool :=
  Version.lt a b || decide (a = b)

/-- `ZERO_VERISON` (name as in the source). -/
def ZERO_VERISON : Version := ⟨0, 0, 0⟩

/-- Python `max(iterable, default)`: the default only when the list is empty,
otherwise the running maximum of the elements. -/
def pyMaxVersion : List Version → Version → Version
  | [], dflt => dflt
  | v :: rest, _ => rest.foldl (fun a b => if Version.lt a b then b else a) v

/-- `list_versions` over the tag list obtained from `git tag`: keep tags with
the `<project>-` prefix, parse each remaining suffix; a parse failure fails
the whole computation (the comprehension raises). -/
def listVersions (project : String) : List String → Option (List Version)
  | [] => some []
  | tag :: rest =>
    if List.isPrefixOf (project.toList ++ ['-']) tag.toList then
      match Version.parseChars (tag.toList.drop (project.toList ++ ['-']).length) with
      | some v => (listVersions project rest).map (fun vs => v :: vs)
      | none => none
    else listVersions project rest

/-- `max(list_versions(project), default=ZERO_VERISON)` from `__main__`. -/
def latestVersion (project : String) (tags : List String) : Option Version :=
  (listVersions project tags).map (fun vs => pyMaxVersion vs ZERO_VERISON)

/-- The `if/elif` chain on `args.version` in `__main__`. -/
def bumpVersion (kind : String) (v : Version) : Version :=
  if kind = "major" then v.next_major
  else if kind = "minor" then v.next_minor
  else if kind = "patch" then v.next_patch
  else v

/-- The version released by `__main__`: latest matching tag (zero fallback)
then the requested bump. -/
def computeReleaseVersion (kind : String) (project : String) (tags : List String) :
    Option Version :=
  (latestVersion project tags).map (bumpVersion kind)

/-- `BuildArtifacts`, with paths relative to the repository root. -/
structure BuildArtifacts where
  project : String
  wasm_file : String
  transform_yaml : String
  deriving DecidableEq, Repr

/-- `build(project)`: the conventional output paths, not checked to exist. -/
def build (project : String) : BuildArtifacts :=
  { project := project
    wasm_file := project ++ "/" ++ project ++ ".wasm"
    transform_yaml := project ++ "/" ++ "transform.yaml" }

/-- The parsed `transform.yaml` document as `make_release` consumes it: a
`description` field and an optional ordered `env` mapping (`none` models a
document with no `env` key at all). -/
structure Manifest where
  description : String
  env : Option (List (String × String))

/-- `transform_file.get("env", dict())`: the empty mapping when absent. -/
def Manifest.getEnv (m : Manifest) : List (String × String) :=
  m.env.getD []

/-- The `required_env` loop of `make_release`: keys whose value is the
literal sentinel `<required>`, in mapping order. -/
def requiredEnvList : List (String × String) → List String
  | [] => []
  | (k, v) :: rest =>
    if v = "<required>" then k :: requiredEnvList rest else requiredEnvList rest

/-- The `env_vars` accumulation of `make_release`: one continuation line,
indented four spaces, per required environment variable. -/
def envVarsString (required : List String) : String :=
  required.foldl (fun acc k => acc ++ " \\\n    " ++ "--env-var='" ++ k ++ "=[VALUE]'") ""

/-- The `notes` f-string of `make_release`, byte for byte: note the leading
newline from the triple-quoted literal and the hardcoded `regex` artifact
name in the deploy line. -/
def renderNotes (version : Version) (m : Manifest) : String :=
  "\n" ++ m.description ++
    "\n\n```\n# Deploy this transform using:\nrpk transform deploy @redpanda-data/regex@" ++
    Version.str version ++
    " \\\n    --name [NAME] \\\n    --input-topic [TOPIC] \\\n    --output-topic [TOPIC]" ++
    envVarsString (requiredEnvList m.getEnv) ++
    "\n```\n    "

/-- Python `str.title()` over ASCII letters: uppercase a letter that follows
a non-letter, lowercase a letter that follows a letter. -/
def pyTitleChars : List Char → Bool → List Char
  | [], _ => []
  | c :: rest, prevAlpha =>
    (if c.isAlpha then (if prevAlpha then c.toLower else c.toUpper) else c) ::
      pyTitleChars rest c.isAlpha

/-- Python `str.title()`. -/
def pyTitle (s : String) : String :=
  String.mk (pyTitleChars s.toList false)

/-- The `gh release create` argument vector assembled by `make_release`; the
manifest stands for the parsed `transform.yaml` read from disk. -/
def make_release (version : Version) (artifacts : BuildArtifacts) (m : Manifest) :
    List String :=
  ["gh", "release", "create",
   artifacts.project ++ "-" ++ Version.str version,
   artifacts.transform_yaml, artifacts.wasm_file,
   "--notes", renderNotes version m,
   "--title", pyTitle artifacts.project ++ " " ++ Version.str version]

/-- Number of positions at which `pat` occurs as a substring. -/
def countOcc (pat : List Char) : List Char → Nat
  | [] => 0
  | c :: rest => (if List.isPrefixOf pat (c :: rest) then 1 else 0) + countOcc pat rest

/-- Decimal value of a digit-character list. -/
def valNat (l : List Char) : Nat :=
  l.foldl (fun a c => a * 10 + (c.toNat - 48)) 0

/-- A dotted three-part version body `<da>.<db>.<dc>` as a char list. -/
def verChars (da db dc : List Char) : List Char :=
  da ++ ('.' :: db) ++ ('.' :: dc)


theorem splitOnChar_ne_nil (sep : Char) (l : List Char) : splitOnChar sep l ≠ [] := by
  induction l with
  | nil => simp [splitOnChar]
  | cons c rest ih =>
    by_cases h : c = sep
    · simp [splitOnChar, h]
    · rcases hr : splitOnChar sep rest with _ | ⟨p, t⟩
      · simp [splitOnChar, h, hr]
      · simp [splitOnChar, h, hr]

theorem splitOnChar_eq_single (sep : Char) (l : List Char)
    (h : ∀ c ∈ l, c ≠ sep) : splitOnChar sep l = [l] := by
  induction l with
  | nil => rfl
  | cons c rest ih =>
    have hc : c ≠ sep := h c (List.mem_cons_self c rest)
    have hr := ih (fun d hd => h d (List.mem_cons_of_mem c hd))
    simp [splitOnChar, hc, hr]

theorem splitOnChar_append (sep : Char) (l r : List Char)
    (h : ∀ c ∈ l, c ≠ sep) :
    splitOnChar sep (l ++ sep :: r) = l :: splitOnChar sep r := by
  induction l with
  | nil => simp [splitOnChar]
  | cons c rest ih =>
    have hc : c ≠ sep := h c (List.mem_cons_self c rest)
    have hr := ih (fun d hd => h d (List.mem_cons_of_mem c hd))
    simp [splitOnChar, hc, hr]

theorem dropWhile_eq_self_of (p : Char → Bool) (l : List Char)
    (h : ∀ c ∈ l, p c = false) : l.dropWhile p = l := by
  cases l with
  | nil => rfl
  | cons c rest => simp [List.dropWhile, h c (List.mem_cons_self c rest)]

theorem stripEdges_eq_self (l : List Char)
    (h : ∀ c ∈ l, isPySpace c = false) : stripEdges l = l := by
  unfold stripEdges
  rw [dropWhile_eq_self_of _ _ h]
  rw [dropWhile_eq_self_of _ _ (fun c hc => h c (List.mem_reverse.mp hc))]
  exact List.reverse_reverse l

theorem isDigit_facts (c : Char) (h : c.isDigit = true) :
    c ≠ '-' ∧ c ≠ '+' ∧ c ≠ 'v' ∧ c ≠ '.' ∧ c ≠ '_' ∧ isPySpace c = false := by
  refine ⟨?_, ?_, ?_, ?_, ?_, ?_⟩
  · rintro rfl; exact absurd h (by decide)
  · rintro rfl; exact absurd h (by decide)
  · rintro rfl; exact absurd h (by decide)
  · rintro rfl; exact absurd h (by decide)
  · rintro rfl; exact absurd h (by decide)
  · cases hs : isPySpace c
    · rfl
    · exfalso
      simp only [isPySpace, Bool.or_eq_true, decide_eq_true_eq] at hs
      rcases hs with ((((h1 | h1) | h1) | h1) | h1) | h1 <;>
        (subst h1; exact absurd h (by decide))

theorem pyDigitsCont_digits (l : List Char) :
    ∀ acc : Nat, (∀ c ∈ l, c.isDigit = true) →
      pyDigitsCont l acc = some (l.foldl (fun a c => a * 10 + (c.toNat - 48)) acc) := by
  induction l with
  | nil => intro acc _; rfl
  | cons c rest ih =>
    intro acc h
    have hc : c.isDigit = true := h c (List.mem_cons_self c rest)
    rw [pyDigitsCont.eq_def]
    simp [hc, ih _ (fun d hd => h d (List.mem_cons_of_mem c hd))]

theorem pyInt_digits (l : List Char) (hne : l ≠ [])
    (h : ∀ c ∈ l, c.isDigit = true) : pyInt l = some (Int.ofNat (valNat l)) := by
  obtain ⟨c, rest, rfl⟩ := List.exists_cons_of_ne_nil hne
  have hc : c.isDigit = true := h c (List.mem_cons_self c rest)
  obtain ⟨hm, hp, -, -, -, -⟩ := isDigit_facts c hc
  have hstrip : stripEdges (c :: rest) = c :: rest :=
    stripEdges_eq_self _ (fun d hd => (isDigit_facts d (h d hd)).2.2.2.2.2)
  simp only [pyInt, hstrip, if_neg hm, if_neg hp]
  simp [pyDigits, hc,
    pyDigitsCont_digits rest (c.toNat - 48) (fun d hd => h d (List.mem_cons_of_mem c hd)),
    valNat]

theorem parseParts_eq_some (a b c : List Char) (x y z : Int)
    (ha : pyInt a = some x) (hb : pyInt b = some y) (hc : pyInt c = some z) :
    parseParts [a, b, c] = some ⟨x, y, z⟩ := by
  simp [parseParts, ha, hb, hc]

theorem parseParts_eq_none_iff (ps : List (List Char)) :
    parseParts ps = none ↔ ps.length ≠ 3 ∨ ∃ p ∈ ps, pyInt p = none := by
  match ps with
  | [] => simp [parseParts]
  | [a] => simp [parseParts]
  | [a, b] => simp [parseParts]
  | [a, b, c] =>
    rcases ha : pyInt a with _ | x <;> rcases hb : pyInt b with _ | y <;>
      rcases hc : pyInt c with _ | z <;>
      simp [parseParts, ha, hb, hc]
  | a :: b :: c :: d :: t => simp [parseParts]

theorem listVersions_mem_iff (project : String) (tags : List String) (vs : List Version)
    (h : listVersions project tags = some vs) (v : Version) :
    v ∈ vs ↔ ∃ t, t ∈ tags ∧
      List.isPrefixOf (project.toList ++ ['-']) t.toList = true ∧
      Version.parseChars (t.toList.drop (project.toList ++ ['-']).length) = some v := by
  induction tags generalizing vs with
  | nil =>
    simp only [listVersions, Option.some.injEq] at h
    subst h
    simp
  | cons tag rest ih =>
    by_cases hp : List.isPrefixOf (project.toList ++ ['-']) tag.toList = true
    · rcases hw : Version.parseChars (tag.toList.drop (project.toList ++ ['-']).length)
        with _ | w
      · rw [listVersions, if_pos hp, hw] at h
        exact absurd h (by simp)
      · rw [listVersions, if_pos hp, hw] at h
        rcases hrec : listVersions project rest with _ | ws
        · rw [hrec] at h
          exact absurd h (by simp)
        · rw [hrec] at h
          obtain rfl : w :: ws = vs := Option.some.inj h
          constructor
          · intro hv
            rcases List.mem_cons.mp hv with rfl | hv2
            · exact ⟨tag, List.mem_cons_self tag rest, hp, hw⟩
            · obtain ⟨t, ht, hpre2, hparse⟩ := (ih ws hrec).mp hv2
              exact ⟨t, List.mem_cons_of_mem tag ht, hpre2, hparse⟩
          · rintro ⟨t, ht, hpre2, hparse⟩
            rcases List.mem_cons.mp ht with rfl | ht2
            · have hw2 : w = v := by
                rw [hw] at hparse
                exact Option.some.inj hparse
              rw [← hw2]
              exact List.mem_cons_self _ _
            · exact List.mem_cons_of_mem w ((ih ws hrec).mpr ⟨t, ht2, hpre2, hparse⟩)
    · have h2 : listVersions project rest = some vs := by
        rw [listVersions, if_neg hp] at h
        exact h
      rw [ih vs h2]
      constructor
      · rintro ⟨t, ht, hpre2, hparse⟩
        exact ⟨t, List.mem_cons_of_mem tag ht, hpre2, hparse⟩
      · rintro ⟨t, ht, hpre2, hparse⟩
        rcases List.mem_cons.mp ht with rfl | ht2
        · exact absurd hpre2 hp
        · exact ⟨t, ht2, hpre2, hparse⟩

theorem listVersions_eq_none (project : String) (tags : List String) (t : String)
    (ht : t ∈ tags)
    (hpre : List.isPrefixOf (project.toList ++ ['-']) t.toList = true)
    (hbad : Version.parseChars (t.toList.drop (project.toList ++ ['-']).length) = none) :
    listVersions project tags = none := by
  induction tags with
  | nil => cases ht
  | cons tag rest ih =>
    rcases List.mem_cons.mp ht with rfl | ht2
    · rw [listVersions, if_pos hpre, hbad]
    · have hr := ih ht2
      by_cases hp : List.isPrefixOf (project.toList ++ ['-']) tag.toList = true
      · rcases hw : Version.parseChars (tag.toList.drop (project.toList ++ ['-']).length)
          with _ | w
        · rw [listVersions, if_pos hp, hw]
        · rw [listVersions, if_pos hp, hw, hr]
          rfl
      · rw [listVersions, if_neg hp]
        exact hr

theorem listVersions_no_match (project : String) (tags : List String)
    (h : ∀ t ∈ tags, List.isPrefixOf (project.toList ++ ['-']) t.toList = false) :
    listVersions project tags = some [] := by
  induction tags with
  | nil => rfl
  | cons tag rest ih =>
    have htag : ¬(List.isPrefixOf (project.toList ++ ['-']) tag.toList = true) := by
      rw [h tag (List.mem_cons_self tag rest)]
      simp
    rw [listVersions, if_neg htag]
    exact ih (fun t ht => h t (List.mem_cons_of_mem tag ht))

theorem split_verChars (da db dc : List Char)
    (ha : ∀ c ∈ da, c ≠ '.') (hb : ∀ c ∈ db, c ≠ '.') (hc : ∀ c ∈ dc, c ≠ '.') :
    splitOnChar '.' (verChars da db dc) = [da, db, dc] := by
  unfold verChars
  rw [List.append_assoc, List.cons_append]
  rw [splitOnChar_append '.' da _ ha]
  rw [splitOnChar_append '.' db _ hb]
  rw [splitOnChar_eq_single '.' dc hc]

set_option maxRecDepth 20000 in
/-- C1: the release-notes template is NOT reproduced with the actual project
name: the deploy line hardcodes the artifact name `regex` (the notes ignore
the project entirely), and the rendered string starts with an extra newline
rather than with the description. Evaluated at project `sum`, version
v1.0.0, description `my description`, empty env table: the notes contain no
`@redpanda-data/sum@` occurrence, exactly one `@redpanda-data/regex@`
occurrence, begin with a newline character, and are exactly the `--notes`
argument passed to the release CLI for project `sum`. -/
theorem C1_notes_ignore_project :
    countOcc ("@redpanda-data/sum@".toList)
      ((renderNotes ⟨1, 0, 0⟩ ⟨"my description", some []⟩).toList) = 0 ∧
    countOcc ("@redpanda-data/regex@".toList)
      ((renderNotes ⟨1, 0, 0⟩ ⟨"my description", some []⟩).toList) = 1 ∧
    (renderNotes ⟨1, 0, 0⟩ ⟨"my description", some []⟩).toList.head? = some '\n' ∧
    (make_release ⟨1, 0, 0⟩ (build "sum") ⟨"my description", some []⟩)[7]? =
      some (renderNotes ⟨1, 0, 0⟩ ⟨"my description", some []⟩) :=
  ⟨by rfl, by rfl, by rfl, by rfl⟩

/-- C2 counterexample: on input `"v1.-2.3"` the middle part `-2` is not a
non-negative integer (it is signed), yet `Version.parse` succeeds and
returns a Version with a negative component, contradicting the claim that
parse fails on any signed part. -/
theorem C2_signed_part_parses :
    splitOnChar '.' (stripV ("v1.-2.3".toList)) = [['1'], ['-', '2'], ['3']] ∧
    (['-', '2'].all Char.isDigit) = false ∧
    Version.parse "v1.-2.3" = some ⟨1, -2, 3⟩ :=
  ⟨by rfl, by rfl, by rfl⟩

/-- C2 (amended): `Version.parse` fails (raises FormatError, modelled as
`none`) if and only if, after stripping an optional leading `v`, splitting
on `.` does not yield exactly three parts or some part is not accepted by
Python's integer conversion (which permits an optional sign, surrounding
whitespace and underscore digit separators, so signed parts succeed and may
yield negative components); otherwise parse returns the Version built from
the three converted parts. -/
theorem C2_parse_none_iff :
    (∀ s : String, Version.parse s = none ↔
      (splitOnChar '.' (stripV s.toList)).length ≠ 3 ∨
        ∃ p ∈ splitOnChar '.' (stripV s.toList), pyInt p = none) ∧
    (∀ (s : String) (a b c : List Char) (x y z : Int),
      splitOnChar '.' (stripV s.toList) = [a, b, c] →
      pyInt a = some x → pyInt b = some y → pyInt c = some z →
      Version.parse s = some ⟨x, y, z⟩) := by
  constructor
  · intro s
    unfold Version.parse Version.parseChars
    exact parseParts_eq_none_iff _
  · intro s a b c x y z hs ha hb hc
    unfold Version.parse Version.parseChars
    rw [hs]
    exact parseParts_eq_some a b c x y z ha hb hc

/-- C2 witness: the amended theorem applied at the concrete input `"1.2.3"`. -/
theorem C2_parse_none_iff_witness : Version.parse "1.2.3" = some ⟨1, 2, 3⟩ :=
  C2_parse_none_iff.2 "1.2.3" ['1'] ['2'] ['3'] 1 2 3 (by rfl) (by rfl) (by rfl) (by rfl)

/-- C3: whenever version discovery succeeds, the returned versions are
exactly those parsed from the suffixes of tags starting with the
`<project>-` prefix (tags without the prefix are ignored); and on the tag
list from the spec example with project `proj` it returns the versions
1.0.0 and 1.2.0, excluding the `other-` tag. -/
theorem C3_listVersions_mem :
    (∀ (project : String) (tags : List String) (vs : List Version),
      listVersions project tags = some vs → ∀ v : Version,
        (v ∈ vs ↔ ∃ t, t ∈ tags ∧
          List.isPrefixOf (project.toList ++ ['-']) t.toList = true ∧
          Version.parseChars (t.toList.drop (project.toList ++ ['-']).length) = some v)) ∧
    listVersions "proj" ["proj-v1.0.0", "proj-v1.2.0", "other-v9.9.9"] =
      some [⟨1, 0, 0⟩, ⟨1, 2, 0⟩] :=
  ⟨listVersions_mem_iff, by rfl⟩

/-- C3 witness: the membership characterization applied at the spec's
example tag list, with the discovery hypothesis discharged by evaluation. -/
theorem C3_listVersions_mem_witness :
    (⟨1, 2, 0⟩ : Version) ∈ ([⟨1, 0, 0⟩, ⟨1, 2, 0⟩] : List Version) ↔
      ∃ t, t ∈ ["proj-v1.0.0", "proj-v1.2.0", "other-v9.9.9"] ∧
        List.isPrefixOf ("proj".toList ++ ['-']) t.toList = true ∧
        Version.parseChars (t.toList.drop ("proj".toList ++ ['-']).length) =
          some ⟨1, 2, 0⟩ :=
  C3_listVersions_mem.1 "proj" ["proj-v1.0.0", "proj-v1.2.0", "other-v9.9.9"]
    [⟨1, 0, 0⟩, ⟨1, 2, 0⟩] (by rfl) ⟨1, 2, 0⟩

/-- C4: if any tag carries the `<project>-` prefix but its suffix does not
parse as a version, the whole discovery fails (`none`), never a partial
best-effort list. -/
theorem C4_malformed_tag_fails :
    ∀ (project : String) (tags : List String) (t : String),
      t ∈ tags →
      List.isPrefixOf (project.toList ++ ['-']) t.toList = true →
      Version.parseChars (t.toList.drop (project.toList ++ ['-']).length) = none →
      listVersions project tags = none :=
  listVersions_eq_none

/-- C4 witness: a well-formed tag plus a malformed `proj-oops` tag make the
whole discovery fail. -/
theorem C4_malformed_tag_fails_witness :
    listVersions "proj" ["proj-v1.0.0", "proj-oops"] = none :=
  C4_malformed_tag_fails "proj" ["proj-v1.0.0", "proj-oops"] "proj-oops"
    (List.mem_cons_of_mem _ (List.mem_cons_self _ _)) (by rfl) (by rfl)

/-- C5: `make_release` always shells out to the release CLI with tag
`<project>-<version>`, attaching the manifest then the wasm artifact, with
title-cased project plus version as title and the rendered notes as body;
for project `regex` at version 1.4.0 this is tag `regex-v1.4.0`, title
`Regex v1.4.0`, attaching `regex/transform.yaml` and `regex/regex.wasm`. -/
theorem C5_release_command :
    (∀ (v : Version) (a : BuildArtifacts) (m : Manifest),
      make_release v a m =
        ["gh", "release", "create", a.project ++ "-" ++ Version.str v,
         a.transform_yaml, a.wasm_file, "--notes", renderNotes v m,
         "--title", pyTitle a.project ++ " " ++ Version.str v]) ∧
    make_release ⟨1, 4, 0⟩ (build "regex") ⟨"desc", some []⟩ =
      ["gh", "release", "create", "regex-v1.4.0", "regex/transform.yaml",
       "regex/regex.wasm", "--notes", renderNotes ⟨1, 4, 0⟩ ⟨"desc", some []⟩,
       "--title", "Regex v1.4.0"] :=
  ⟨fun _ _ _ => rfl, by rfl⟩

/-- C6: the three bump operations produce exactly the claimed triples, and
consequently `next_major` strictly increases, `next_minor` and `next_patch`
do not decrease while keeping the higher-order components, and each bump
zeroes all lower-order components. -/
theorem C6_next_versions (v : Version) :
    v.next_major = ⟨v.major + 1, 0, 0⟩ ∧
    v.next_minor = ⟨v.major, v.minor + 1, 0⟩ ∧
    v.next_patch = ⟨v.major, v.minor, v.patch + 1⟩ ∧
    Version.lt v v.next_major = true ∧
    Version.le v v.next_minor = true ∧ v.next_minor.major = v.major ∧
    Version.le v v.next_patch = true ∧ v.next_patch.major = v.major ∧
    v.next_patch.minor = v.minor ∧
    v.next_major.minor = 0 ∧ v.next_major.patch = 0 ∧ v.next_minor.patch = 0 := by
  obtain ⟨a, b, c⟩ := v
  refine ⟨rfl, rfl, rfl, ?_, ?_, rfl, ?_, rfl, rfl, rfl, rfl, rfl⟩
  · simp only [Version.lt, Version.next_major, Bool.or_eq_true, Bool.and_eq_true,
      decide_eq_true_eq]
    omega
  · simp only [Version.le, Version.lt, Version.next_minor, Bool.or_eq_true,
      Bool.and_eq_true, decide_eq_true_eq, Version.mk.injEq, eq_self_iff_true,
      true_and]
    omega
  · simp only [Version.le, Version.lt, Version.next_patch, Bool.or_eq_true,
      Bool.and_eq_true, decide_eq_true_eq, Version.mk.injEq, eq_self_iff_true,
      true_and]
    omega

/-- C7: for every dotted string of three non-negative decimal integer
parts, with or without a leading `v`, `parse` succeeds with the three
decimal values and rendering the result always yields the canonical
`v<major>.<minor>.<patch>` form. -/
theorem C7_parse_toString_roundtrip (da db dc : List Char)
    (hda : da ≠ []) (hdb : db ≠ []) (hdc : dc ≠ [])
    (ha : ∀ c ∈ da, c.isDigit = true) (hb : ∀ c ∈ db, c.isDigit = true)
    (hc : ∀ c ∈ dc, c.isDigit = true) :
    (Version.parse (String.mk (verChars da db dc))).map Version.str =
      some (Version.str
        ⟨Int.ofNat (valNat da), Int.ofNat (valNat db), Int.ofNat (valNat dc)⟩) ∧
    (Version.parse (String.mk ('v' :: verChars da db dc))).map Version.str =
      some (Version.str
        ⟨Int.ofNat (valNat da), Int.ofNat (valNat db), Int.ofNat (valNat dc)⟩) ∧
    Version.str ⟨Int.ofNat (valNat da), Int.ofNat (valNat db), Int.ofNat (valNat dc)⟩ =
      "v" ++ toString (Int.ofNat (valNat da)) ++ "." ++ toString (Int.ofNat (valNat db)) ++
        "." ++ toString (Int.ofNat (valNat dc)) := by
  have hx := pyInt_digits da hda ha
  have hy := pyInt_digits db hdb hb
  have hz := pyInt_digits dc hdc hc
  have hsplit := split_verChars da db dc
    (fun c hm => (isDigit_facts c (ha c hm)).2.2.2.1)
    (fun c hm => (isDigit_facts c (hb c hm)).2.2.2.1)
    (fun c hm => (isDigit_facts c (hc c hm)).2.2.2.1)
  have hstrip1 : stripV (verChars da db dc) = verChars da db dc := by
    obtain ⟨c0, da2, rfl⟩ := List.exists_cons_of_ne_nil hda
    have hc0 : c0 ≠ 'v' := (isDigit_facts c0 (ha c0 (List.mem_cons_self c0 da2))).2.2.1
    simp [stripV, verChars, hc0]
  have hmain : Version.parseChars (verChars da db dc) =
      some ⟨Int.ofNat (valNat da), Int.ofNat (valNat db), Int.ofNat (valNat dc)⟩ := by
    unfold Version.parseChars
    rw [hstrip1, hsplit]
    exact parseParts_eq_some da db dc _ _ _ hx hy hz
  have hmainv : Version.parseChars ('v' :: verChars da db dc) =
      some ⟨Int.ofNat (valNat da), Int.ofNat (valNat db), Int.ofNat (valNat dc)⟩ := by
    unfold Version.parseChars
    have hsv : stripV ('v' :: verChars da db dc) = verChars da db dc := by
      simp [stripV]
    rw [hsv, hsplit]
    exact parseParts_eq_some da db dc _ _ _ hx hy hz
  refine ⟨?_, ?_, rfl⟩
  · show (Version.parseChars (verChars da db dc)).map Version.str = _
    rw [hmain]
    rfl
  · show (Version.parseChars ('v' :: verChars da db dc)).map Version.str = _
    rw [hmainv]
    rfl

/-- C7 witness: applied at `"v07.0.12"` (leading zeros and a leading `v`):
parse succeeds with (7, 0, 12) and re-rendering is canonical. -/
theorem C7_parse_toString_roundtrip_witness :
    (Version.parse (String.mk ('v' :: verChars ['0', '7'] ['0'] ['1', '2']))).map
        Version.str =
      some (Version.str ⟨Int.ofNat (valNat ['0', '7']), Int.ofNat (valNat ['0']),
        Int.ofNat (valNat ['1', '2'])⟩) :=
  (C7_parse_toString_roundtrip ['0', '7'] ['0'] ['1', '2'] (by decide) (by decide)
    (by decide) (by decide) (by decide) (by decide)).2.1

/-- C8: when no tag carries the project's prefix, the fallback latest
version is `ZERO_VERISON` and a `patch` bump releases v0.0.1. -/
theorem C8_zero_fallback (project : String) (tags : List String)
    (h : ∀ t ∈ tags, List.isPrefixOf (project.toList ++ ['-']) t.toList = false) :
    latestVersion project tags = some ZERO_VERISON ∧
    computeReleaseVersion "patch" project tags = some ⟨0, 0, 1⟩ := by
  have h0 := listVersions_no_match project tags h
  constructor
  · unfold latestVersion
    rw [h0]
    rfl
  · unfold computeReleaseVersion latestVersion
    rw [h0]
    rfl

/-- C8 witness: a tag list whose only tag belongs to another project. -/
theorem C8_zero_fallback_witness :
    latestVersion "proj" ["other-v9.9.9"] = some ZERO_VERISON ∧
    computeReleaseVersion "patch" "proj" ["other-v9.9.9"] = some ⟨0, 0, 1⟩ :=
  C8_zero_fallback "proj" ["other-v9.9.9"] (by decide)

set_option maxRecDepth 20000 in
/-- C9: a key is rendered as a required environment variable exactly when
its manifest value is the literal sentinel `<required>`; for env
`A: <required>, B: default` the notes contain exactly one
`--env-var of A` flag and none for `B`. -/
theorem C9_required_env :
    (∀ (env : List (String × String)) (k : String),
      k ∈ requiredEnvList env ↔ (k, "<required>") ∈ env) ∧
    countOcc ("--env-var='A=[VALUE]'".toList)
      ((renderNotes ⟨1, 0, 0⟩
        ⟨"d", some [("A", "<required>"), ("B", "default")]⟩).toList) = 1 ∧
    countOcc ("--env-var='B".toList)
      ((renderNotes ⟨1, 0, 0⟩
        ⟨"d", some [("A", "<required>"), ("B", "default")]⟩).toList) = 0 := by
  refine ⟨?_, by rfl, by rfl⟩
  intro env k
  induction env with
  | nil => simp [requiredEnvList]
  | cons kv rest ih =>
    obtain ⟨k2, v2⟩ := kv
    by_cases hv : v2 = "<required>"
    · subst hv
      simp [requiredEnvList, ih, List.mem_cons, Prod.mk.injEq]
    · have hv2 : ¬("<required>" = v2) := fun hx => hv hx.symm
      simp [requiredEnvList, hv, hv2, ih, List.mem_cons, Prod.mk.injEq]

set_option maxRecDepth 20000 in
/-- C10: a manifest with a description but no `env` key renders identically
to one with an empty env table: no required variables, an empty env-vars
segment, zero `--env-var` flags, and no failure. -/
theorem C10_missing_env_key :
    (∀ (ver : Version) (d : String),
      renderNotes ver ⟨d, none⟩ = renderNotes ver ⟨d, some []⟩) ∧
    (∀ d : String, requiredEnvList (Manifest.getEnv ⟨d, none⟩) = []) ∧
    envVarsString [] = "" ∧
    countOcc ("--env-var".toList)
      ((renderNotes ⟨1, 2, 3⟩ ⟨"some description", none⟩).toList) = 0 :=
  ⟨fun _ _ => rfl, fun _ => rfl, rfl, by rfl⟩
